import Mathlib

/-
Verification development for the hector climate-model binding layer.

The embedding covers:
  * the tracked carbon pool (fluxpool) and its source-fraction bookkeeping,
  * the CSV fluxpool visitor (print_pool, shouldVisit) from
    src/src/csv_fluxpool_visitor.cpp,
  * the R-facing instance operations (gethcore, shutdown, reset, run,
    getdate, sendmessage, tracking and biome calls) from
    src/src/rcpp_hector.cpp,
  * a deterministic lifecycle model for reset/replay, following
    src/misc/main-api.cpp and the specification of the core.

Real numbers of the C++ code are modelled as rationals; exact equalities
in the rationals imply the "within tolerance" phrasing of the spec.
-/

namespace Hector

/-! ## Tracked pool (fluxpool)

Modelled from the spec: the fluxpool class itself is not among the given
source files (only its callers in csv_fluxpool_visitor.cpp are), so the
pool operations below follow the spec, section 4.2: `add` recomputes the
fraction map as
`(oldFraction_i * oldMagnitude + incomingFraction_i * flowMagnitude) / newMagnitude`
for every source present in either map, `subtract` leaves the fraction map
unchanged, `get_sources` returns the source names with non-zero fraction,
and `get_fraction` returns a source's fraction or zero if absent.
The C++ source-fraction map is embedded as an association list with
distinct keys. -/

/-- Lookup of a source's fraction in an association list; absent keys give 0,
mirroring the spec of get_fraction. -/
def lookupFrac : List (String × ℚ) → String → ℚ
  | [], _ => 0
  | (k, v) :: rest, s => if s = k then v else lookupFrac rest s

/-- Sum of all recorded fractions of a fraction map. -/
def sumFrac (m : List (String × ℚ)) : ℚ := (m.map Prod.snd).sum

/-- The keys (source names) of a fraction map. -/
def keysOf (m : List (String × ℚ)) : List String := m.map Prod.fst

/-- The source names present in either of two fraction maps, each once. -/
def mergeKeys (old inc : List (String × ℚ)) : List String :=
  keysOf old ++ (keysOf inc).filter (fun k => decide (k ∉ keysOf old))

/-- Modelled from the spec: the fraction map of a pool after an inflow is the
size-weighted combination of its prior fractions and the fractions of the
contributing flow, over every source present in either map. -/
def mergeCtmap (oldAmt flowAmt : ℚ) (old inc : List (String × ℚ)) :
    List (String × ℚ) :=
  (mergeKeys old inc).map (fun k =>
    (k, (lookupFrac old k * oldAmt + lookupFrac inc k * flowAmt) / (oldAmt + flowAmt)))

/-- A tracked pool: named magnitude with units, a tracking flag and a
source-fraction map (the ctmap of the C++ class). -/
structure fluxpool where
  name : String
  unitsName : String
  amount : ℚ
  tracking : Bool
  ctmap : List (String × ℚ)

/-- Fraction attributed to a given source name, zero when absent. -/
def fluxpool.get_fraction (p : fluxpool) (s : String) : ℚ := lookupFrac p.ctmap s

/-- Source names with non-zero fraction, in the stable map order. -/
def fluxpool.get_sources (p : fluxpool) : List String :=
  (p.ctmap.filter (fun e => decide (e.2 ≠ 0))).map Prod.fst

/-- Modelled from the spec: add an inflow with its own source attribution;
when tracking is enabled the fraction map is reapportioned. -/
def fluxpool.add (p : fluxpool) (flowAmt : ℚ) (flowMap : List (String × ℚ)) :
    fluxpool :=
  if p.tracking then
    { p with amount := p.amount + flowAmt,
             ctmap := mergeCtmap p.amount flowAmt p.ctmap flowMap }
  else
    { p with amount := p.amount + flowAmt }

/-- Modelled from the spec: a withdrawal decreases the magnitude and leaves
the fraction map unchanged (the outgoing flow inherits the current mix). -/
def fluxpool.subtract (p : fluxpool) (flowAmt : ℚ) : fluxpool :=
  { p with amount := p.amount - flowAmt }

/-- One pool operation of a history: an inflow with its attribution, or an
outflow. -/
inductive PoolOp where
  | addOp (flowAmt : ℚ) (flowMap : List (String × ℚ))
  | subOp (flowAmt : ℚ)

/-- Apply one pool operation. -/
def applyPoolOp (p : fluxpool) : PoolOp → fluxpool
  | .addOp a m => p.add a m
  | .subOp a => p.subtract a

/-- Apply a whole history of pool operations, oldest first. -/
def applyPoolOps (p : fluxpool) : List PoolOp → fluxpool
  | [] => p
  | op :: rest => applyPoolOps (applyPoolOp p op) rest

/-- A well-formed source attribution of a flow: distinct sources, nonnegative
fractions, total one. -/
def ValidAttrib (m : List (String × ℚ)) : Prop :=
  (keysOf m).Nodup ∧ (∀ e ∈ m, 0 ≤ e.2) ∧ sumFrac m = 1

/-- The pool invariant: nonnegative magnitude, distinct sources with
nonnegative fractions, and fractions summing to one whenever tracking is on
and the pool is non-empty. -/
structure PoolInv (p : fluxpool) : Prop where
  amount_nonneg : 0 ≤ p.amount
  keys_nodup : (keysOf p.ctmap).Nodup
  frac_nonneg : ∀ e ∈ p.ctmap, 0 ≤ e.2
  sum_one : p.tracking = true → p.amount ≠ 0 → sumFrac p.ctmap = 1

/-- Validity of an operation history from a given pool: inflows are
nonnegative with well-formed attributions, and outflows never exceed the
pool's current contents (per the spec's NegativePool policy). -/
def ValidOpsFrom : fluxpool → List PoolOp → Prop
  | _, [] => True
  | p, (PoolOp.addOp a m) :: rest =>
      0 ≤ a ∧ ValidAttrib m ∧ ValidOpsFrom (p.add a m) rest
  | p, (PoolOp.subOp a) :: rest =>
      0 ≤ a ∧ a ≤ p.amount ∧ ValidOpsFrom (p.subtract a) rest

/-! ## CSV fluxpool visitor

Embedded from src/src/csv_fluxpool_visitor.cpp.  A printed CSV row is
modelled as a structured record; the stream output of print_pool is the
optional record it appends. -/

/-- One row of the tracking report: date, pool name, value, units, and one
(source, fraction) pair per source of the pool. -/
structure PoolRecord where
  date : String
  pool_name : String
  pool_value : ℚ
  pool_units : String
  sources : List (String × ℚ)
deriving DecidableEq

/-- The record print_pool would emit for a tracked pool on a given date. -/
def poolRecordOf (datestring : String) (x : fluxpool) : PoolRecord :=
  { date := datestring
    pool_name := x.name
    pool_value := x.amount
    pool_units := x.unitsName
    sources := x.get_sources.map (fun s => (s, x.get_fraction s)) }

/-- CSVFluxPoolVisitor::print_pool: emits one row for the pool when its
tracking flag is set, nothing otherwise. -/
def print_pool (datestring : String) (x : fluxpool) : Option PoolRecord :=
  if x.tracking then some (poolRecordOf datestring x) else none

/-- The rows the visitor emits for a list of potentially tracked pools on one
date (the visit of the SimpleNbox component prints each candidate pool). -/
def visitRecords (datestring : String) (pools : List fluxpool) : List PoolRecord :=
  pools.filterMap (print_pool datestring)

/-- The whole tracking report over a run: per reporting date, the rows of
that date's pool snapshot (getTrackingData serializes these rows). -/
def trackingReport (snaps : List (String × List fluxpool)) : List PoolRecord :=
  snaps.flatMap (fun dp => visitRecords dp.1 dp.2)

/-- CSVFluxPoolVisitor::shouldVisit: records the date string and visits all
non-spinup model periods.  Returns the updated datestring member together
with the boolean result. -/
def shouldVisit (in_spinup : Bool) (date : ℚ) : String × Bool :=
  (toString date, !in_spinup)

/-- Modelled from the spec: the core's stepping loop calls shouldVisit at
every stepped date (pairs of spinup flag and date) and visits the visitor
exactly when it returned true; visitedDates collects the visited dates. -/
def visitedDates (steps : List (Bool × ℚ)) : List ℚ :=
  (steps.filter (fun st => (shouldVisit st.1 st.2).2)).map Prod.snd

/-! ## The R-facing instance layer

Embedded from src/src/rcpp_hector.cpp.  An instance handle holds the index
into the global core registry plus the clean flag and reset date kept on the
R environment; the registry lookup of a deleted core yields null, which
gethcore turns into the invalid-instance error.  The model keeps one handle
with its (optional) core: `hcore = none` is the state after shutdown.

The Hector::Core internals (reset, run, sendMessage dispatch) are not among
the given source files; they are modelled from the spec: the core tracks
start/end/current dates, a spin-up counter, deterministic component state as
a function of the date, registered capabilities, a dispatch log and the
biome list. -/

/-- Unit tags: a named defined unit or the undefined tag U_UNDEFINED. -/
inductive unit_types where
  | U_UNDEFINED
  | U_NAMED (s : String)
deriving DecidableEq

/-- Modelled from the spec: the canonical unit names unitval::parseUnitsName
recognizes (a representative set; any name outside the list fails). -/
def knownUnitNames : List String :=
  ["PgC", "PgC yr-1", "ppmv CO2", "degC", "W m-2", "Tg", "Gg", "Gg S"]

/-- Modelled from the spec: parseUnitsName maps a canonical unit name to its
tag and fails with UnknownUnit otherwise. -/
def parseUnitsName (s : String) : Except String unit_types :=
  if knownUnitNames.contains s then Except.ok (unit_types.U_NAMED s)
  else Except.error ("Unknown units " ++ s)

/-- Core::undefinedIndex(), the sentinel date used when the date is NA. -/
def undefinedIndex : ℚ := -1

/-- A message payload: time coordinate and a unit-checked value. -/
structure message_data where
  date : ℚ
  value : ℚ
  units : unit_types
deriving DecidableEq

/-- One dispatched message: type, capability and payload. -/
structure HMsg where
  msgtype : String
  capability : String
  info : message_data
deriving DecidableEq

/-- The message-type strings of the messaging boundary. -/
def M_GETDATA : String := "GETDATA"

/-- The message-type string of update messages. -/
def M_SETDATA : String := "SETDATA"

/-- Modelled from the spec: the state of one Hector::Core instance. The
component state is deterministic, so it is represented as a function
`history` from date to state; `compState` is the currently loaded state and
`history startDate` is the post-spin-up snapshot. -/
structure HCore where
  startDate : ℚ
  endDate : ℚ
  current : ℚ
  spinupRuns : ℕ
  compState : ℚ
  history : ℚ → ℚ
  caps : List String
  readValue : String → ℚ → ℚ
  capUnits : String → String
  msgLog : List HMsg
  biomes : List String
  trackSnaps : List (String × List fluxpool)

/-- Modelled from the spec: Core::reset(date).  A date before the start date
reruns the spin-up (restoring the post-spin-up snapshot and leaving the model
ready at the start date); otherwise the state checkpointed at the date is
restored without rerunning spin-up. -/
def HCore.reset (c : HCore) (date : ℚ) : HCore :=
  if date < c.startDate then
    { c with current := c.startDate,
             compState := c.history c.startDate,
             spinupRuns := c.spinupRuns + 1 }
  else
    { c with current := date, compState := c.history date }

/-- Modelled from the spec: Core::run(runtodate) advances the clock to the
requested date, or to the configured end date when the non-positive sentinel
is given. -/
def HCore.runTo (c : HCore) (runtodate : ℚ) : HCore :=
  let t := if 0 < runtodate then runtodate else c.endDate
  { c with current := t, compState := c.history t }

/-- Modelled from the spec: Core::sendMessage routes the message to the
component registered for the capability, failing with UnknownCapability
otherwise; a successful dispatch is appended to the log and answers with a
unit-checked value. -/
def HCore.sendMessage (c : HCore) (msgtype capability : String)
    (info : message_data) : HCore × Except String (ℚ × String) :=
  if c.caps.contains capability then
    ({ c with msgLog := c.msgLog ++ [⟨msgtype, capability, info⟩] },
     Except.ok (c.readValue capability info.date, c.capUnits capability))
  else
    (c, Except.error ("Unknown capability " ++ capability))

/-- The instance handle state: the (possibly deleted) core of the registry
slot, plus the clean flag and reset date stored on the R environment. -/
structure RState where
  hcore : Option HCore
  clean : Bool
  reset_date : ℚ

/-- The error message of gethcore for a deleted or unknown core. -/
def invalidCoreMsg : String := "Invalid or inactive hcore object"

/-- The error message of the sendmessage length precondition. -/
def lengthMsg : String := "Value must have length 1 or same length as date."

/-- The error message of run for a positive target earlier than the current
date. -/
def runPriorMsg : String :=
  "Requested run date is prior to the current date. Run reset() to reset to an earlier date."

/-- The error message of sendmessage for an unparseable unit on a SETDATA
message. -/
def invalidUnitMsg (unitstr capstr : String) : String :=
  "invalid unit type " ++ unitstr ++ " in input " ++ capstr

/-- shutdown: Core::delcore removes the instance from the registry, so the
handle's registry lookup yields null afterwards. -/
def shutdownOp (s : RState) : RState := { s with hcore := none }

/-- reset(core, date): looks the core up (failing on a deleted instance),
rewinds it, and marks the handle clean when the target date is at or before
the recorded reset date. -/
def resetOp (s : RState) (date : ℚ) : RState × Except String Unit :=
  match s.hcore with
  | none => (s, Except.error invalidCoreMsg)
  | some h =>
    let h' := h.reset date
    let clean' := if date ≤ s.reset_date then true else s.clean
    ({ s with hcore := some h', clean := clean' }, Except.ok ())

/-- The part of run(core, runtodate) after the auto-reset: core lookup, the
stale-date check, and the advance of the clock. -/
def runCheckAndAdvance (s : RState) (runtodate : ℚ) : RState × Except String Unit :=
  match s.hcore with
  | none => (s, Except.error invalidCoreMsg)
  | some h =>
    if 0 < runtodate ∧ runtodate < h.current then
      (s, Except.error runPriorMsg)
    else
      ({ s with hcore := some (h.runTo runtodate) }, Except.ok ())

/-- run(core, runtodate): a dirty handle is first auto-reset to the recorded
reset date (an error there aborts the call), then the core is looked up, a
positive target earlier than the current date is rejected, and otherwise the
clock advances. -/
def runOp (s : RState) (runtodate : ℚ) : RState × Except String Unit :=
  if s.clean then
    runCheckAndAdvance s runtodate
  else
    match resetOp s s.reset_date with
    | (s₁, Except.ok _) => runCheckAndAdvance s₁ runtodate
    | (s₁, Except.error e) => (s₁, Except.error e)

/-- getdate(core): the current date of a valid instance. -/
def getdateOp (s : RState) : RState × Except String ℚ :=
  match s.hcore with
  | none => (s, Except.error invalidCoreMsg)
  | some h => (s, Except.ok h.current)

/-- get_tracking_data_impl(core): the tracking report of a valid instance. -/
def getTrackingDataOp (s : RState) : RState × Except String (List PoolRecord) :=
  match s.hcore with
  | none => (s, Except.error invalidCoreMsg)
  | some h => (s, Except.ok (trackingReport h.trackSnaps))

/-- get_biome_list(core). -/
def getBiomeListOp (s : RState) : RState × Except String (List String) :=
  match s.hcore with
  | none => (s, Except.error invalidCoreMsg)
  | some h => (s, Except.ok h.biomes)

/-- create_biome_impl(core, biome). -/
def createBiomeOp (s : RState) (biome : String) : RState × Except String Unit :=
  match s.hcore with
  | none => (s, Except.error invalidCoreMsg)
  | some h =>
    ({ s with hcore := some { h with biomes := h.biomes ++ [biome] } }, Except.ok ())

/-- delete_biome_impl(core, biome). -/
def deleteBiomeOp (s : RState) (biome : String) : RState × Except String Unit :=
  match s.hcore with
  | none => (s, Except.error invalidCoreMsg)
  | some h =>
    ({ s with hcore := some { h with biomes := h.biomes.erase biome } }, Except.ok ())

/-- rename_biome(core, oldname, newname): create-copy-then-delete under the
new name. -/
def renameBiomeOp (s : RState) (oldname newname : String) :
    RState × Except String Unit :=
  match s.hcore with
  | none => (s, Except.error invalidCoreMsg)
  | some h =>
    let h' := { h with biomes := h.biomes.map (fun b => if b = oldname then newname else b) }
    ({ s with hcore := some h' }, Except.ok ())

/-- The per-date value list of sendmessage: a single value is reused for
every date (ival = 0), otherwise values are consumed in step with dates. -/
def valsFor (date value : List (Option ℚ)) : List (Option ℚ) :=
  if value.length = 1 then List.replicate date.length (value.getD 0 none)
  else value

/-- The message sendmessage constructs for one (date, value) pair: an NA date
becomes the undefined index, an NA value becomes zero. -/
def msgOf (msgtype capability : String) (utype : unit_types)
    (dv : Option ℚ × Option ℚ) : HMsg :=
  ⟨msgtype, capability, ⟨dv.1.getD undefinedIndex, dv.2.getD 0, utype⟩⟩

/-- The messages a fully successful sendmessage call dispatches: one per
date entry. -/
def expectedMsgs (msgtype capability : String) (utype : unit_types)
    (date value : List (Option ℚ)) : List HMsg :=
  (date.zip (valsFor date value)).map (msgOf msgtype capability utype)

/-- The dispatch loop of sendmessage: one message per (date, value) pair; a
dispatch failure aborts the loop but keeps the effect of the messages
already dispatched (the C++ exception does not roll the core back). -/
def msgLoop (h : HCore) (msgtype capability : String) (utype : unit_types) :
    List (Option ℚ × Option ℚ) → HCore × Except String (List (ℚ × String))
  | [] => (h, Except.ok [])
  | dv :: rest =>
    match h.sendMessage msgtype capability (msgOf msgtype capability utype dv).info with
    | (h', Except.ok rv) =>
      match msgLoop h' msgtype capability utype rest with
      | (h'', Except.ok rest') => (h'', Except.ok (rv :: rest'))
      | (h'', Except.error e) => (h'', Except.error e)
    | (h', Except.error e) => (h', Except.error e)

/-- sendmessage(core, msgtype, capability, date, value, unit): core lookup,
the length precondition, unit-name parsing (fatal only for SETDATA; other
message types fall back to the undefined tag), then one dispatched message
per date entry. -/
def sendmessageOp (s : RState) (msgtype capability : String)
    (date value : List (Option ℚ)) (unit : String) :
    RState × Except String (List (ℚ × String)) :=
  match s.hcore with
  | none => (s, Except.error invalidCoreMsg)
  | some h =>
    if value.length ≠ date.length ∧ value.length ≠ 1 then
      (s, Except.error lengthMsg)
    else
      match parseUnitsName unit with
      | Except.ok utype =>
        let (h', r) := msgLoop h msgtype capability utype (date.zip (valsFor date value))
        ({ s with hcore := some h' }, r)
      | Except.error _ =>
        if msgtype = M_SETDATA then
          (s, Except.error (invalidUnitMsg unit capability))
        else
          let (h', r) := msgLoop h msgtype capability unit_types.U_UNDEFINED
              (date.zip (valsFor date value))
          ({ s with hcore := some h' }, r)

/-- The handle state whose core is the given one with its dispatch log
replaced: the shape of a successful sendmessage result. -/
def withLog (s : RState) (h : HCore) (log : List HMsg) : RState :=
  { s with hcore := some { h with msgLog := log } }

/-- The R-facing operations other than shutdown, as one call type. -/
inductive RcppOp where
  | runO (runtodate : ℚ)
  | resetO (date : ℚ)
  | getdateO
  | sendmessageO (msgtype capability : String) (date value : List (Option ℚ)) (unit : String)
  | trackingO
  | biomeListO
  | createBiomeO (b : String)
  | deleteBiomeO (b : String)
  | renameBiomeO (o n : String)

/-- Whether a call is the explicit reset entry point. -/
def RcppOp.isReset : RcppOp → Bool
  | .resetO _ => true
  | _ => false

/-- The possible return payloads of the R-facing operations. -/
inductive RcppRet where
  | unitR
  | dateR (d : ℚ)
  | frameR (l : List (ℚ × String))
  | reportR (l : List PoolRecord)
  | listR (l : List String)

/-- Uniform dispatcher over the R-facing operations. -/
def applyRcpp (op : RcppOp) (s : RState) : RState × Except String RcppRet :=
  match op with
  | .runO d => (fun p => (p.1, p.2.map (fun _ => RcppRet.unitR))) (runOp s d)
  | .resetO d => (fun p => (p.1, p.2.map (fun _ => RcppRet.unitR))) (resetOp s d)
  | .getdateO => (fun p => (p.1, p.2.map RcppRet.dateR)) (getdateOp s)
  | .sendmessageO t c dl vl u =>
      (fun p => (p.1, p.2.map RcppRet.frameR)) (sendmessageOp s t c dl vl u)
  | .trackingO => (fun p => (p.1, p.2.map RcppRet.reportR)) (getTrackingDataOp s)
  | .biomeListO => (fun p => (p.1, p.2.map RcppRet.listR)) (getBiomeListOp s)
  | .createBiomeO b => (fun p => (p.1, p.2.map (fun _ => RcppRet.unitR))) (createBiomeOp s b)
  | .deleteBiomeO b => (fun p => (p.1, p.2.map (fun _ => RcppRet.unitR))) (deleteBiomeOp s b)
  | .renameBiomeO o n =>
      (fun p => (p.1, p.2.map (fun _ => RcppRet.unitR))) (renameBiomeOp s o n)

/-! ## Deterministic lifecycle model for reset/replay

Modelled from the spec: the core is single-threaded and deterministic; a run
advances the clock one step at a time, applying the date-indexed component
step function; reset to the start date restores the post-spin-up snapshot.
This mirrors the replay experiment of src/misc/main-api.cpp. -/

/-- A deterministic core: configured dates, date-indexed step function,
post-spin-up snapshot, current date and loaded component state. -/
structure SimCore (S : Type) where
  startDate : ℤ
  endDate : ℤ
  step : ℤ → S → S
  spinState : S
  current : ℤ
  state : S

/-- A freshly initialized instance: spin-up has produced the snapshot and the
clock stands at the start date. -/
def mkSimCore (a b : ℤ) (step : ℤ → S → S) (spin : S) : SimCore S :=
  ⟨a, b, step, spin, a, spin⟩

/-- One clock step: advance a date and step the component state. -/
def SimCore.stepOnce (c : SimCore S) : SimCore S :=
  { c with current := c.current + 1, state := c.step (c.current + 1) c.state }

/-- Run a number of steps, returning the final core. -/
def runEnd (c : SimCore S) : ℕ → SimCore S
  | 0 => c
  | n + 1 => runEnd c.stepOnce n

/-- Run a number of steps, recording the state queried at every stepped
date. -/
def runRecord (c : SimCore S) : ℕ → List (ℤ × S)
  | 0 => []
  | n + 1 => (c.stepOnce.current, c.stepOnce.state) :: runRecord c.stepOnce n

/-- reset(startDate): the clock returns to the start date and the component
state to the post-spin-up snapshot. -/
def reset_start (c : SimCore S) : SimCore S :=
  { c with current := c.startDate, state := c.spinState }

/-! ## Concrete states for witnesses and counterexamples -/

/-- A sample core instance used to instantiate the handle-layer theorems:
configured for 1745-2100, currently at 2000. -/
def sampleCore : HCore :=
  { startDate := 1745, endDate := 2100, current := 2000, spinupRuns := 1,
    compState := 0, history := fun _ => 0, caps := ["co2"],
    readValue := fun _ _ => 3, capUnits := fun _ => "ppmv CO2",
    msgLog := [], biomes := ["global"], trackSnaps := [] }

/-- A handle on sampleCore whose clean flag is false with reset date 1750. -/
def dirtyState : RState :=
  { hcore := some sampleCore, clean := false, reset_date := 1750 }

/-- A handle on sampleCore whose clean flag is true. -/
def cleanState : RState :=
  { hcore := some sampleCore, clean := true, reset_date := 1750 }

/-- A sample tracked pool: 100 units fully self-attributed. -/
def samplePool : fluxpool :=
  { name := "atmos_c", unitsName := "PgC", amount := 100, tracking := true,
    ctmap := [("atmos_c", 1)] }

/-- A sample history of pool operations: an inflow of 50 units attributed to
soil_c, then an outflow of 30 units. -/
def sampleOps : List PoolOp :=
  [PoolOp.addOp 50 [("soil_c", 1)], PoolOp.subOp 30]

/-- The sample pool with its tracking flag disabled. -/
def untrackedPool : fluxpool := { samplePool with tracking := false }

/-! ## Fraction-map lemmas -/

theorem lookupFrac_nonneg {m : List (String × ℚ)} (h : ∀ e ∈ m, 0 ≤ e.2)
    (s : String) : 0 ≤ lookupFrac m s := by
  induction m with
  | nil => simp [lookupFrac]
  | cons e rest ih =>
    obtain ⟨k, v⟩ := e
    simp only [lookupFrac]
    split
    · exact h (k, v) (List.mem_cons_self _ _)
    · exact ih (fun e he => h e (List.mem_cons_of_mem _ he))

theorem sum_map_zero (K : List String) : (K.map (fun _ => (0 : ℚ))).sum = 0 := by
  induction K with
  | nil => simp
  | cons a K ih => simp [ih]

theorem sum_map_addf (K : List String) (f g : String → ℚ) :
    (K.map (fun k => f k + g k)).sum = (K.map f).sum + (K.map g).sum := by
  induction K with
  | nil => simp
  | cons a K ih => simp only [List.map_cons, List.sum_cons, ih]; ring

theorem sum_map_mulc (K : List String) (f : String → ℚ) (c : ℚ) :
    (K.map (fun k => f k * c)).sum = (K.map f).sum * c := by
  induction K with
  | nil => simp
  | cons a K ih => simp only [List.map_cons, List.sum_cons, ih]; ring

theorem sum_map_lookup (m : List (String × ℚ)) : ∀ (K : List String),
    K.Nodup → (keysOf m).Nodup → (∀ k ∈ keysOf m, k ∈ K) →
    (K.map (lookupFrac m)).sum = sumFrac m := by
  induction m with
  | nil =>
    intro K _ _ _
    have h0 : K.map (lookupFrac []) = K.map (fun _ => (0 : ℚ)) :=
      List.map_congr_left (fun a _ => rfl)
    rw [h0, sum_map_zero]
    simp [sumFrac]
  | cons e m' ih =>
    obtain ⟨k, v⟩ := e
    intro K hK hnd hsub
    have hndc : (k :: keysOf m').Nodup := hnd
    have hk_notin : k ∉ keysOf m' := (List.nodup_cons.mp hndc).1
    have hndm : (keysOf m').Nodup := (List.nodup_cons.mp hndc).2
    have hkK : k ∈ K := hsub k (List.mem_cons_self _ _)
    have h1 : (K.map (lookupFrac ((k, v) :: m'))).sum
        = ((k :: K.erase k).map (lookupFrac ((k, v) :: m'))).sum :=
      ((List.perm_cons_erase hkK).map _).sum_eq
    rw [h1]
    have h2 : (K.erase k).map (lookupFrac ((k, v) :: m'))
        = (K.erase k).map (lookupFrac m') := by
      apply List.map_congr_left
      intro x hx
      have hxk : x ≠ k := ((hK.mem_erase_iff).mp hx).1
      simp [lookupFrac, hxk]
    have h3 : ((K.erase k).map (lookupFrac m')).sum = sumFrac m' := by
      apply ih
      · exact hK.erase _
      · exact hndm
      · intro x hx
        have hxK : x ∈ K := hsub x (List.mem_cons_of_mem _ hx)
        have hxk : x ≠ k := fun hxe => hk_notin (hxe ▸ hx)
        exact (hK.mem_erase_iff).mpr ⟨hxk, hxK⟩
    simp only [List.map_cons, List.sum_cons, h2, h3]
    simp [lookupFrac, sumFrac]

theorem nodup_mergeKeys {old inc : List (String × ℚ)}
    (h1 : (keysOf old).Nodup) (h2 : (keysOf inc).Nodup) :
    (mergeKeys old inc).Nodup := by
  apply List.Nodup.append h1 (h2.filter _)
  intro a ha hb
  have hp := List.of_mem_filter hb
  simp only [decide_eq_true_eq] at hp
  exact hp ha

theorem mem_mergeKeys_left {old inc : List (String × ℚ)} :
    ∀ k ∈ keysOf old, k ∈ mergeKeys old inc := by
  intro k hk
  exact List.mem_append_left _ hk

theorem mem_mergeKeys_right {old inc : List (String × ℚ)} :
    ∀ k ∈ keysOf inc, k ∈ mergeKeys old inc := by
  intro k hk
  by_cases h : k ∈ keysOf old
  · exact List.mem_append_left _ h
  · refine List.mem_append_right _ ?_
    exact List.mem_filter.mpr ⟨hk, by simpa using h⟩

theorem keysOf_mergeCtmap (oldAmt flowAmt : ℚ) (old inc : List (String × ℚ)) :
    keysOf (mergeCtmap oldAmt flowAmt old inc) = mergeKeys old inc := by
  unfold mergeCtmap keysOf
  rw [List.map_map]
  have h2 : List.map
      (Prod.fst ∘ fun k =>
        (k, (lookupFrac old k * oldAmt + lookupFrac inc k * flowAmt) / (oldAmt + flowAmt)))
      (mergeKeys old inc) = List.map (fun k => k) (mergeKeys old inc) :=
    List.map_congr_left (fun k _ => rfl)
  rw [h2]
  simp

theorem sumFrac_mergeCtmap {old inc : List (String × ℚ)} (oldAmt flowAmt : ℚ)
    (h1 : (keysOf old).Nodup) (h2 : (keysOf inc).Nodup) :
    sumFrac (mergeCtmap oldAmt flowAmt old inc)
      = (sumFrac old * oldAmt + sumFrac inc * flowAmt) / (oldAmt + flowAmt) := by
  have hks : (mergeKeys old inc).Nodup := nodup_mergeKeys h1 h2
  have hmap : sumFrac (mergeCtmap oldAmt flowAmt old inc)
      = ((mergeKeys old inc).map (fun k =>
          (lookupFrac old k * oldAmt + lookupFrac inc k * flowAmt)
            * (oldAmt + flowAmt)⁻¹)).sum := by
    unfold mergeCtmap sumFrac
    rw [List.map_map]
    have h2 : List.map
        (Prod.snd ∘ fun k =>
          (k, (lookupFrac old k * oldAmt + lookupFrac inc k * flowAmt) / (oldAmt + flowAmt)))
        (mergeKeys old inc)
        = List.map (fun k =>
            (lookupFrac old k * oldAmt + lookupFrac inc k * flowAmt)
              * (oldAmt + flowAmt)⁻¹) (mergeKeys old inc) :=
      List.map_congr_left (fun k _ => by simp [div_eq_mul_inv])
    rw [h2]
  rw [hmap, sum_map_mulc, sum_map_addf, sum_map_mulc, sum_map_mulc,
    sum_map_lookup old _ hks h1 mem_mergeKeys_left,
    sum_map_lookup inc _ hks h2 mem_mergeKeys_right, div_eq_mul_inv]

theorem lookupFrac_of_mem {m : List (String × ℚ)} (hnd : (keysOf m).Nodup)
    {k : String} {v : ℚ} (hmem : (k, v) ∈ m) : lookupFrac m k = v := by
  induction m with
  | nil => simp at hmem
  | cons e rest ih =>
    obtain ⟨k', v'⟩ := e
    have hndc : (k' :: keysOf rest).Nodup := hnd
    rcases List.mem_cons.mp hmem with h | h
    · rw [Prod.mk.injEq] at h
      obtain ⟨rfl, rfl⟩ := h
      simp [lookupFrac]
    · have hk : k ≠ k' := by
        intro he
        apply (List.nodup_cons.mp hndc).1
        subst he
        exact List.mem_map_of_mem Prod.fst h
      simp only [lookupFrac, if_neg hk]
      exact ih (List.nodup_cons.mp hndc).2 h

theorem sumFrac_filter_ne_zero (m : List (String × ℚ)) :
    sumFrac (m.filter (fun e => decide (e.2 ≠ 0))) = sumFrac m := by
  induction m with
  | nil => rfl
  | cons e rest ih =>
    by_cases h : e.2 = 0
    · rw [List.filter_cons, if_neg (by simp [h])]
      rw [ih]
      simp [sumFrac, h]
    · rw [List.filter_cons, if_pos (by simp [h])]
      simp only [sumFrac, List.map_cons, List.sum_cons]
      simp only [sumFrac] at ih
      rw [ih]

theorem sum_get_sources {p : fluxpool} (hnd : (keysOf p.ctmap).Nodup) :
    (p.get_sources.map p.get_fraction).sum = sumFrac p.ctmap := by
  have h1 : p.get_sources.map p.get_fraction
      = (p.ctmap.filter (fun e => decide (e.2 ≠ 0))).map
          (fun e => lookupFrac p.ctmap e.1) := by
    simp [fluxpool.get_sources, fluxpool.get_fraction, List.map_map, Function.comp]
  have h2 : (p.ctmap.filter (fun e => decide (e.2 ≠ 0))).map
        (fun e => lookupFrac p.ctmap e.1)
      = (p.ctmap.filter (fun e => decide (e.2 ≠ 0))).map Prod.snd := by
    apply List.map_congr_left
    intro e he
    exact lookupFrac_of_mem hnd (by simpa using List.mem_of_mem_filter he)
  rw [h1, h2]
  exact sumFrac_filter_ne_zero p.ctmap

/-! ## Pool invariant preservation -/

theorem poolInv_add {p : fluxpool} {a : ℚ} {m : List (String × ℚ)}
    (hp : PoolInv p) (ha : 0 ≤ a) (hm : ValidAttrib m) : PoolInv (p.add a m) := by
  obtain ⟨hmnd, hmnn, hmsum⟩ := hm
  by_cases ht : p.tracking
  · refine ⟨?_, ?_, ?_, ?_⟩
    · simpa [fluxpool.add, ht] using add_nonneg hp.amount_nonneg ha
    · simpa [fluxpool.add, ht, keysOf_mergeCtmap] using
        nodup_mergeKeys hp.keys_nodup hmnd
    · intro e he
      simp only [fluxpool.add, ht, if_pos] at he
      obtain ⟨k, _, rfl⟩ := List.mem_map.mp he
      apply div_nonneg
      · exact add_nonneg
          (mul_nonneg (lookupFrac_nonneg hp.frac_nonneg k) hp.amount_nonneg)
          (mul_nonneg (lookupFrac_nonneg hmnn k) ha)
      · exact add_nonneg hp.amount_nonneg ha
    · intro _ hne
      have hne' : p.amount + a ≠ 0 := by simpa [fluxpool.add, ht] using hne
      have hsum : sumFrac (mergeCtmap p.amount a p.ctmap m)
          = (sumFrac p.ctmap * p.amount + sumFrac m * a) / (p.amount + a) :=
        sumFrac_mergeCtmap p.amount a hp.keys_nodup hmnd
      simp only [fluxpool.add, ht, if_pos]
      rw [hsum, hmsum]
      by_cases h0 : p.amount = 0
      · have hA : a ≠ 0 := by simpa [h0] using hne'
        rw [h0]
        simpa using div_self hA
      · rw [hp.sum_one ht h0]
        field_simp
  · have ht' : p.tracking = false := by simpa using ht
    refine ⟨?_, ?_, ?_, ?_⟩
    · simpa [fluxpool.add, ht'] using add_nonneg hp.amount_nonneg ha
    · simpa [fluxpool.add, ht'] using hp.keys_nodup
    · intro e he
      exact hp.frac_nonneg e (by simpa [fluxpool.add, ht'] using he)
    · intro htt _
      simp [fluxpool.add, ht'] at htt

theorem poolInv_subtract {p : fluxpool} {a : ℚ}
    (hp : PoolInv p) (ha0 : 0 ≤ a) (hale : a ≤ p.amount) :
    PoolInv (p.subtract a) := by
  refine ⟨?_, ?_, ?_, ?_⟩
  · simpa [fluxpool.subtract] using sub_nonneg.mpr hale
  · simpa [fluxpool.subtract] using hp.keys_nodup
  · intro e he
    exact hp.frac_nonneg e (by simpa [fluxpool.subtract] using he)
  · intro ht hne
    have h0 : p.amount ≠ 0 := by
      intro h0
      apply hne
      have : a = 0 := le_antisymm (h0 ▸ hale) ha0
      simp [fluxpool.subtract, h0, this]
    simpa [fluxpool.subtract] using hp.sum_one (by simpa [fluxpool.subtract] using ht) h0

theorem poolInv_applyPoolOps (ops : List PoolOp) : ∀ (p : fluxpool),
    PoolInv p → ValidOpsFrom p ops → PoolInv (applyPoolOps p ops) := by
  induction ops with
  | nil =>
    intro p hp _
    simpa [applyPoolOps] using hp
  | cons op rest ih =>
    intro p hp hv
    cases op with
    | addOp a m =>
      rw [ValidOpsFrom] at hv
      obtain ⟨ha, hm, hrest⟩ := hv
      simpa [applyPoolOps, applyPoolOp] using ih _ (poolInv_add hp ha hm) hrest
    | subOp a =>
      rw [ValidOpsFrom] at hv
      obtain ⟨ha, hle, hrest⟩ := hv
      simpa [applyPoolOps, applyPoolOp] using ih _ (poolInv_subtract hp ha hle) hrest

/-! ## Claim C1 -/

/-- C1: For every tracked pool that is non-empty and has tracking enabled,
the fractions returned by get_fraction for each source name in get_sources
are each in the interval from 0 to 1 and sum to exactly 1 (so in particular
within any tolerance), and this holds after any valid sequence of add and
subtract operations on the pool. -/
theorem claim_C1_fractions_sum_to_one (p : fluxpool) (ops : List PoolOp)
    (hp : PoolInv p) (hops : ValidOpsFrom p ops)
    (ht : (applyPoolOps p ops).tracking = true)
    (hne : (applyPoolOps p ops).amount ≠ 0) :
    (∀ s ∈ (applyPoolOps p ops).get_sources,
        0 ≤ (applyPoolOps p ops).get_fraction s
          ∧ (applyPoolOps p ops).get_fraction s ≤ 1)
      ∧ ((applyPoolOps p ops).get_sources.map
          (applyPoolOps p ops).get_fraction).sum = 1 := by
  have hinv := poolInv_applyPoolOps ops p hp hops
  set q := applyPoolOps p ops with hq
  have hsum : sumFrac q.ctmap = 1 := hinv.sum_one ht hne
  refine ⟨?_, ?_⟩
  · intro s hs
    have hs' : s ∈ (q.ctmap.filter (fun e => decide (e.2 ≠ 0))).map Prod.fst := hs
    obtain ⟨e, he, hfst⟩ := List.mem_map.mp hs'
    have hem : e ∈ q.ctmap := List.mem_of_mem_filter he
    have hlf : q.get_fraction s = e.2 := by
      rw [← hfst]
      exact lookupFrac_of_mem hinv.keys_nodup (by simpa using hem)
    have hnn : ∀ x ∈ q.ctmap.map Prod.snd, (0 : ℚ) ≤ x := by
      intro x hx
      obtain ⟨e', he', rfl⟩ := List.mem_map.mp hx
      exact hinv.frac_nonneg e' he'
    have hub : e.2 ≤ sumFrac q.ctmap :=
      List.single_le_sum hnn e.2 (List.mem_map_of_mem Prod.snd hem)
    refine ⟨?_, ?_⟩
    · rw [hlf]
      exact hinv.frac_nonneg e hem
    · rw [hlf]
      rw [hsum] at hub
      exact hub
  · rw [sum_get_sources hinv.keys_nodup, hsum]

/-- Witness for C1: the sample pool with its sample operation history
satisfies all hypotheses, and the conclusion holds there. -/
theorem claim_C1_fractions_sum_to_one_witness :
    PoolInv samplePool ∧ ValidOpsFrom samplePool sampleOps
      ∧ (applyPoolOps samplePool sampleOps).tracking = true
      ∧ (applyPoolOps samplePool sampleOps).amount ≠ 0
      ∧ ((∀ s ∈ (applyPoolOps samplePool sampleOps).get_sources,
            0 ≤ (applyPoolOps samplePool sampleOps).get_fraction s
              ∧ (applyPoolOps samplePool sampleOps).get_fraction s ≤ 1)
          ∧ ((applyPoolOps samplePool sampleOps).get_sources.map
              (applyPoolOps samplePool sampleOps).get_fraction).sum = 1) := by
  have h1 : PoolInv samplePool := by
    refine ⟨by norm_num [samplePool], by simp [samplePool, keysOf], ?_, ?_⟩
    · intro e he
      simp only [samplePool, List.mem_singleton] at he
      subst he
      norm_num
    · intro _ _
      norm_num [samplePool, sumFrac]
  have h2 : ValidOpsFrom samplePool sampleOps := by
    simp only [sampleOps, ValidOpsFrom, ValidAttrib]
    refine ⟨by norm_num, ⟨by simp [keysOf], ?_, by norm_num [sumFrac]⟩,
      by norm_num, ?_, trivial⟩
    · intro e he
      simp only [List.mem_singleton] at he
      subst he
      norm_num
    · norm_num [samplePool, fluxpool.add]
  have h3 : (applyPoolOps samplePool sampleOps).tracking = true := rfl
  have h4 : (applyPoolOps samplePool sampleOps).amount ≠ 0 := by
    norm_num [applyPoolOps, applyPoolOp, sampleOps, samplePool,
      fluxpool.add, fluxpool.subtract]
  exact ⟨h1, h2, h3, h4, claim_C1_fractions_sum_to_one samplePool sampleOps h1 h2 h3 h4⟩

/-! ## Claim C2 -/

theorem visitRecords_eq (d : String) (ps : List fluxpool) :
    visitRecords d ps = (ps.filter (fun x => x.tracking)).map (poolRecordOf d) := by
  induction ps with
  | nil => rfl
  | cons x ps ih =>
    cases hx : x.tracking with
    | true =>
      simp only [visitRecords, List.filterMap_cons, print_pool, hx, if_pos,
        List.filter_cons, List.map_cons]
      rw [← visitRecords]
      rw [ih]
    | false =>
      simp only [visitRecords, List.filterMap_cons, print_pool, hx,
        Bool.false_eq_true, if_false, List.filter_cons]
      rw [← visitRecords]
      rw [ih]

/-- C2: The tracking report emits, per reporting date, exactly one record per
pool with tracking enabled, containing the date, the pool name, its value,
its unit and one (source name, fraction) pair per source; for a pool whose
tracking flag is disabled, no record is emitted at all. -/
theorem claim_C2_tracking_report (snaps : List (String × List fluxpool))
    (d : String) (x : fluxpool) :
    trackingReport snaps
        = snaps.flatMap (fun dp =>
            (dp.2.filter (fun y => y.tracking)).map (poolRecordOf dp.1))
      ∧ (x.tracking = false → print_pool d x = none)
      ∧ (x.tracking = true →
          print_pool d x = some (poolRecordOf d x)
            ∧ (poolRecordOf d x).date = d
            ∧ (poolRecordOf d x).pool_name = x.name
            ∧ (poolRecordOf d x).pool_value = x.amount
            ∧ (poolRecordOf d x).pool_units = x.unitsName
            ∧ (poolRecordOf d x).sources
                = x.get_sources.map (fun s => (s, x.get_fraction s))) := by
  refine ⟨?_, ?_, ?_⟩
  · unfold trackingReport
    congr 1
    funext dp
    exact visitRecords_eq dp.1 dp.2
  · intro hx
    simp [print_pool, hx]
  · intro hx
    exact ⟨by simp [print_pool, hx], rfl, rfl, rfl, rfl, rfl⟩

/-- Witness for C2: a tracked and an untracked concrete pool. -/
theorem claim_C2_tracking_report_witness :
    print_pool "1750" untrackedPool = none
      ∧ print_pool "1750" samplePool = some (poolRecordOf "1750" samplePool) :=
  ⟨(claim_C2_tracking_report [] "1750" untrackedPool).2.1 rfl,
   ((claim_C2_tracking_report [] "1750" samplePool).2.2 rfl).1⟩

/-! ## Claim C3 -/

/-- C3: shouldVisit returns false exactly when in_spinup is true, so the
core's stepping loop visits a registered visitor at exactly the non-spin-up
stepped dates (once per such date, in order) and never during spin-up. -/
theorem claim_C3_shouldVisit_no_spinup (b : Bool) (dq : ℚ)
    (steps : List (Bool × ℚ)) :
    (shouldVisit b dq).2 = !b
      ∧ visitedDates steps = (steps.filter (fun st => !st.1)).map Prod.snd := by
  constructor
  · rfl
  · unfold visitedDates
    congr 1

/-! ## Claim C4 -/

theorem runEnd_fields (n : ℕ) : ∀ (c : SimCore S),
    (runEnd c n).startDate = c.startDate ∧ (runEnd c n).endDate = c.endDate
      ∧ (runEnd c n).step = c.step ∧ (runEnd c n).spinState = c.spinState := by
  induction n with
  | zero => exact fun c => ⟨rfl, rfl, rfl, rfl⟩
  | succ n ih =>
    intro c
    simpa [runEnd, SimCore.stepOnce] using ih c.stepOnce

theorem reset_start_runEnd (a b : ℤ) (step : ℤ → S → S) (spin : S) (n : ℕ) :
    reset_start (runEnd (mkSimCore a b step spin) n) = mkSimCore a b step spin := by
  obtain ⟨h1, h2, h3, h4⟩ := runEnd_fields n (mkSimCore a b step spin)
  simp [reset_start, mkSimCore] at *
  simp [h1, h2, h3, h4]

/-- C4: for every end date (a number of stepped years), resetting to the
start date a core that has run to the end and running again yields the same
recorded result at every queried date as the first run of the freshly
initialized instance: determinism under reset. -/
theorem claim_C4_reset_run_determinism {S : Type} (a b : ℤ) (step : ℤ → S → S)
    (spin : S) (n : ℕ) :
    runRecord (reset_start (runEnd (mkSimCore a b step spin) n)) n
      = runRecord (mkSimCore a b step spin) n := by
  rw [reset_start_runEnd]

/-! ## Claim C6 -/

/-- C6: after shutDown deletes the instance from the registry, every
subsequent operation on the handle — run, reset, getdate, sendmessage,
tracking and biome calls — fails with the invalid-instance error and leaves
the state untouched. -/
theorem claim_C6_all_ops_fail_after_shutdown (s : RState) (op : RcppOp) :
    applyRcpp op (shutdownOp s) = (shutdownOp s, Except.error invalidCoreMsg) := by
  cases op with
  | runO d =>
    cases hc : s.clean <;>
      simp [applyRcpp, shutdownOp, runOp, runCheckAndAdvance, resetOp, hc, Except.map]
  | resetO d => simp [applyRcpp, shutdownOp, resetOp, Except.map]
  | getdateO => simp [applyRcpp, shutdownOp, getdateOp, Except.map]
  | sendmessageO t c dl vl u => simp [applyRcpp, shutdownOp, sendmessageOp, Except.map]
  | trackingO => simp [applyRcpp, shutdownOp, getTrackingDataOp, Except.map]
  | biomeListO => simp [applyRcpp, shutdownOp, getBiomeListOp, Except.map]
  | createBiomeO bm => simp [applyRcpp, shutdownOp, createBiomeOp, Except.map]
  | deleteBiomeO bm => simp [applyRcpp, shutdownOp, deleteBiomeOp, Except.map]
  | renameBiomeO o nn => simp [applyRcpp, shutdownOp, renameBiomeOp, Except.map]

/-! ## Claim C7 -/

/-- C7: calling reset with the R-level default target (0) leaves the
instance at the configured start date; resetting exactly to the start date
skips the spin-up re-execution while restoring the component state to the
post-spin-up snapshot. -/
theorem claim_C7_reset_default_and_start_date (s : RState) (h : HCore)
    (hc : s.hcore = some h) (hpos : 0 < h.startDate) :
    ((resetOp s 0).2 = Except.ok ()
        ∧ ∃ h₀, (resetOp s 0).1.hcore = some h₀
            ∧ h₀.current = h.startDate
            ∧ h₀.compState = h.history h.startDate)
      ∧ ((resetOp s h.startDate).2 = Except.ok ()
        ∧ ∃ h₁, (resetOp s h.startDate).1.hcore = some h₁
            ∧ h₁.current = h.startDate
            ∧ h₁.spinupRuns = h.spinupRuns
            ∧ h₁.compState = h.history h.startDate) := by
  constructor
  · refine ⟨by simp [resetOp, hc], h.reset 0, by simp [resetOp, hc], ?_, ?_⟩
    · simp [HCore.reset, hpos]
    · simp [HCore.reset, hpos]
  · refine ⟨by simp [resetOp, hc], h.reset h.startDate, by simp [resetOp, hc], ?_, ?_, ?_⟩
    · simp [HCore.reset]
    · simp [HCore.reset]
    · simp [HCore.reset]

/-- Witness for C7 at the sample handle and core. -/
theorem claim_C7_reset_default_and_start_date_witness :
    ((resetOp cleanState 0).2 = Except.ok ()
        ∧ ∃ h₀, (resetOp cleanState 0).1.hcore = some h₀
            ∧ h₀.current = sampleCore.startDate
            ∧ h₀.compState = sampleCore.history sampleCore.startDate)
      ∧ ((resetOp cleanState sampleCore.startDate).2 = Except.ok ()
        ∧ ∃ h₁, (resetOp cleanState sampleCore.startDate).1.hcore = some h₁
            ∧ h₁.current = sampleCore.startDate
            ∧ h₁.spinupRuns = sampleCore.spinupRuns
            ∧ h₁.compState = sampleCore.history sampleCore.startDate) :=
  claim_C7_reset_default_and_start_date cleanState sampleCore rfl
    (by norm_num [sampleCore])

/-! ## Claim C8 -/

/-- C8: whenever the handle's clean flag is false, run first resets the
instance to the recorded reset date — which marks the handle clean again —
before the stale-date check and the advance of the clock; a run on a clean
handle performs no such reset. -/
theorem claim_C8_dirty_run_auto_resets (s : RState) (h : HCore) (d : ℚ)
    (hc : s.hcore = some h) :
    (s.clean = false →
      resetOp s s.reset_date
          = ({ s with hcore := some (h.reset s.reset_date), clean := true },
             Except.ok ())
        ∧ runOp s d
            = runCheckAndAdvance
                { s with hcore := some (h.reset s.reset_date), clean := true } d)
      ∧ (s.clean = true → runOp s d = runCheckAndAdvance s d) := by
  constructor
  · intro hcl
    have hr : resetOp s s.reset_date
        = ({ s with hcore := some (h.reset s.reset_date), clean := true },
           Except.ok ()) := by
      simp [resetOp, hc]
    refine ⟨hr, ?_⟩
    simp [runOp, hcl, hr]
  · intro hcl
    simp [runOp, hcl]

/-- Witness for C8 at the dirty sample handle. -/
theorem claim_C8_dirty_run_auto_resets_witness :
    resetOp dirtyState dirtyState.reset_date
        = ({ dirtyState with
              hcore := some (sampleCore.reset dirtyState.reset_date),
              clean := true },
           Except.ok ())
      ∧ runOp dirtyState 1900
          = runCheckAndAdvance
              { dirtyState with
                  hcore := some (sampleCore.reset dirtyState.reset_date),
                  clean := true } 1900 :=
  (claim_C8_dirty_run_auto_resets dirtyState sampleCore 1900 rfl).1 rfl

/-! ## Dispatch-loop lemmas -/

theorem HMsg_eta (msgtype capability : String) (utype : unit_types)
    (dv : Option ℚ × Option ℚ) :
    (⟨msgtype, capability, (msgOf msgtype capability utype dv).info⟩ : HMsg)
      = msgOf msgtype capability utype dv := rfl

theorem msgLoop_fields (msgtype capability : String) (utype : unit_types) :
    ∀ (l : List (Option ℚ × Option ℚ)) (h : HCore),
      (msgLoop h msgtype capability utype l).1.current = h.current
        ∧ ∃ tail, (msgLoop h msgtype capability utype l).1.msgLog = h.msgLog ++ tail
            ∧ ∀ m ∈ tail, m.info.units = utype := by
  intro l
  induction l with
  | nil =>
    intro h
    exact ⟨rfl, [], by simp [msgLoop], by simp⟩
  | cons dv rest ih =>
    intro h
    by_cases hcap : h.caps.contains capability = true
    · obtain ⟨hcur, tail, hlog, hunits⟩ :=
        ih { h with msgLog := h.msgLog ++ [msgOf msgtype capability utype dv] }
      rcases hml : msgLoop { h with msgLog := h.msgLog ++ [msgOf msgtype capability utype dv] }
          msgtype capability utype rest with ⟨h2, r⟩
      rw [hml] at hcur hlog
      have hmem : capability ∈ h.caps := by simpa using hcap
      have hstate : (msgLoop h msgtype capability utype (dv :: rest)).1 = h2 := by
        cases r <;> simp [msgLoop, HCore.sendMessage, hcap, hmem, HMsg_eta, hml]
      refine ⟨?_, msgOf msgtype capability utype dv :: tail, ?_, ?_⟩
      · rw [hstate, hcur]
      · rw [hstate, hlog]
        simp
      · intro m hm
        rcases List.mem_cons.mp hm with rfl | hm
        · rfl
        · exact hunits m hm
    · have hmem : capability ∉ h.caps := by simpa using hcap
      refine ⟨?_, [], ?_, by simp⟩ <;>
        simp [msgLoop, HCore.sendMessage, hcap, hmem]

theorem msgLoop_success (msgtype capability : String) (utype : unit_types) :
    ∀ (l : List (Option ℚ × Option ℚ)) (h : HCore),
      h.caps.contains capability = true →
      msgLoop h msgtype capability utype l
        = ({ h with msgLog := h.msgLog ++ l.map (msgOf msgtype capability utype) },
           Except.ok (l.map (fun dv =>
             (h.readValue capability (msgOf msgtype capability utype dv).info.date,
              h.capUnits capability)))) := by
  intro l
  induction l with
  | nil =>
    intro h _
    simp [msgLoop]
  | cons dv rest ih =>
    intro h hcap
    have hrec := ih { h with msgLog := h.msgLog ++ [msgOf msgtype capability utype dv] } hcap
    simp only [msgLoop, HCore.sendMessage, hcap, if_true, List.map_cons, HMsg_eta,
      eq_self_iff_true]
    rw [hrec]
    simp

theorem expectedMsgs_length (msgtype capability : String) (utype : unit_types)
    (date value : List (Option ℚ))
    (hlen : ¬(value.length ≠ date.length ∧ value.length ≠ 1)) :
    (expectedMsgs msgtype capability utype date value).length = date.length := by
  unfold expectedMsgs valsFor
  rw [List.length_map, List.length_zip, apply_ite List.length]
  by_cases h1 : value.length = 1
  · rw [if_pos h1, List.length_replicate, Nat.min_self]
  · have h2 : value.length = date.length := by tauto
    rw [if_neg h1, h2, Nat.min_self]

theorem expectedMsgs_single_value (msgtype capability : String)
    (utype : unit_types) (date value : List (Option ℚ))
    (h1 : value.length = 1) :
    ∀ m ∈ expectedMsgs msgtype capability utype date value,
      m.info.value = (value.getD 0 none).getD 0 := by
  intro m hm
  unfold expectedMsgs valsFor at hm
  rw [if_pos h1] at hm
  obtain ⟨dv, hdv, rfl⟩ := List.mem_map.mp hm
  obtain ⟨d0, v0⟩ := dv
  have hv0 : v0 = value.getD 0 none :=
    List.eq_of_mem_replicate (List.of_mem_zip hdv).2
  simp [msgOf, hv0]

/-! ## Claim C5 -/

/-- C5 counterexample: on the dirty sample handle (recorded reset date 1750,
core currently at 2000) a run to 1900 — a positive target earlier than the
current date — succeeds and leaves the clock at 1900, rewound below 2000,
instead of failing without moving the clock. -/
theorem claim_C5_counterexample :
    (runOp dirtyState 1900).2 = Except.ok ()
      ∧ ((runOp dirtyState 1900).1.hcore.map HCore.current) = some 1900
      ∧ sampleCore.current = 2000
      ∧ (1900 : ℚ) < 2000 := by
  refine ⟨?_, ?_, rfl, by norm_num⟩ <;>
    norm_num [runOp, dirtyState, resetOp, sampleCore, HCore.reset,
      runCheckAndAdvance, HCore.runTo]

/-- C5 amended: on a handle whose clean flag is true, the current simulated
date never decreases across any operation other than an explicit reset; in
particular a run call with a positive target date earlier than the current
date fails without advancing or rewinding the clock.  (On a dirty handle,
run first performs an automatic reset to the recorded reset date, which can
rewind the clock — the original claim fails there.) -/
theorem claim_C5_amended_no_date_regress_when_clean (op : RcppOp) (s : RState)
    (h : HCore) (hres : op.isReset = false) (hcl : s.clean = true)
    (hc : s.hcore = some h) (hend : h.current ≤ h.endDate) :
    (∀ h', (applyRcpp op s).1.hcore = some h' → h.current ≤ h'.current)
      ∧ (∀ d, op = RcppOp.runO d → 0 < d → d < h.current →
          applyRcpp op s = (s, Except.error runPriorMsg)) := by
  constructor
  · intro h' hh'
    cases op with
    | runO d =>
      simp only [applyRcpp] at hh'
      rw [runOp, if_pos hcl] at hh'
      simp only [runCheckAndAdvance, hc] at hh'
      by_cases hcond : 0 < d ∧ d < h.current
      · rw [if_pos hcond] at hh'
        obtain rfl : h = h' := by simpa [hc] using hh'
        exact le_refl _
      · rw [if_neg hcond] at hh'
        obtain rfl : h.runTo d = h' := by simpa using hh'
        by_cases hd : 0 < d
        · have hnlt : ¬d < h.current := fun hlt => hcond ⟨hd, hlt⟩
          simpa [HCore.runTo, hd] using le_of_not_lt hnlt
        · simpa [HCore.runTo, hd] using hend
    | resetO d => simp [RcppOp.isReset] at hres
    | getdateO =>
      simp only [applyRcpp, getdateOp, hc, Option.some.injEq] at hh'
      subst hh'
      exact le_refl _
    | sendmessageO t c dl vl u =>
      simp only [applyRcpp, sendmessageOp, hc] at hh'
      by_cases hlen : vl.length ≠ dl.length ∧ vl.length ≠ 1
      · rw [if_pos hlen] at hh'
        obtain rfl : h = h' := by simpa [hc] using hh'
        exact le_refl _
      · rw [if_neg hlen] at hh'
        cases hpu : parseUnitsName u with
        | ok utype =>
          rw [hpu] at hh'
          simp only [Option.some.injEq] at hh'
          obtain rfl := hh'
          exact le_of_eq
            ((msgLoop_fields t c utype (dl.zip (valsFor dl vl)) h).1).symm
        | error e =>
          rw [hpu] at hh'
          simp only [Option.some.injEq] at hh'
          by_cases ht : t = M_SETDATA
          · rw [if_pos ht] at hh'
            obtain rfl : h = h' := by simpa [hc] using hh'
            exact le_refl _
          · rw [if_neg ht] at hh'
            simp only [Option.some.injEq] at hh'
            obtain rfl := hh'
            exact le_of_eq
              ((msgLoop_fields t c unit_types.U_UNDEFINED
                (dl.zip (valsFor dl vl)) h).1).symm
    | trackingO =>
      simp only [applyRcpp, getTrackingDataOp, hc, Option.some.injEq] at hh'
      subst hh'
      exact le_refl _
    | biomeListO =>
      simp only [applyRcpp, getBiomeListOp, hc, Option.some.injEq] at hh'
      subst hh'
      exact le_refl _
    | createBiomeO bm =>
      simp only [applyRcpp, createBiomeOp, hc, Option.some.injEq] at hh'
      subst hh'
      exact le_refl _
    | deleteBiomeO bm =>
      simp only [applyRcpp, deleteBiomeOp, hc, Option.some.injEq] at hh'
      subst hh'
      exact le_refl _
    | renameBiomeO o nn =>
      simp only [applyRcpp, renameBiomeOp, hc, Option.some.injEq] at hh'
      subst hh'
      exact le_refl _
  · intro d hop h0 hlt
    subst hop
    simp [applyRcpp, runOp, hcl, runCheckAndAdvance, hc, h0, hlt, Except.map]

/-- Witness for the amended C5: on the clean sample handle a run to 1900
(positive, earlier than the current date 2000) fails with the stale-date
error and the state is unchanged. -/
theorem claim_C5_amended_no_date_regress_when_clean_witness :
    applyRcpp (RcppOp.runO 1900) cleanState
      = (cleanState, Except.error runPriorMsg) :=
  (claim_C5_amended_no_date_regress_when_clean (RcppOp.runO 1900) cleanState
      sampleCore rfl rfl rfl (by norm_num [sampleCore])).2
    1900 rfl (by norm_num) (by norm_num [sampleCore])

/-! ## sendmessage unfolding lemmas -/

theorem sendmessageOp_length_error (s : RState) (h : HCore)
    (msgtype capability : String) (date value : List (Option ℚ)) (u : String)
    (hc : s.hcore = some h) (h1 : value.length ≠ date.length)
    (h2 : value.length ≠ 1) :
    sendmessageOp s msgtype capability date value u
      = (s, Except.error lengthMsg) := by
  simp only [sendmessageOp, hc]
  rw [if_pos ⟨h1, h2⟩]

theorem sendmessageOp_parse_ok (s : RState) (h : HCore)
    (msgtype capability : String) (date value : List (Option ℚ)) (u : String)
    (utype : unit_types) (hc : s.hcore = some h)
    (hlen : ¬(value.length ≠ date.length ∧ value.length ≠ 1))
    (hu : parseUnitsName u = Except.ok utype) :
    sendmessageOp s msgtype capability date value u
      = ({ s with hcore := some ((msgLoop h msgtype capability utype
              (date.zip (valsFor date value))).1) },
         (msgLoop h msgtype capability utype (date.zip (valsFor date value))).2) := by
  simp only [sendmessageOp, hc]
  rw [if_neg hlen, hu]

theorem sendmessageOp_parse_error (s : RState) (h : HCore)
    (msgtype capability : String) (date value : List (Option ℚ)) (u e : String)
    (hc : s.hcore = some h)
    (hlen : ¬(value.length ≠ date.length ∧ value.length ≠ 1))
    (hu : parseUnitsName u = Except.error e) :
    sendmessageOp s msgtype capability date value u
      = if msgtype = M_SETDATA then
          (s, Except.error (invalidUnitMsg u capability))
        else
          ({ s with hcore := some ((msgLoop h msgtype capability
                unit_types.U_UNDEFINED (date.zip (valsFor date value))).1) },
           (msgLoop h msgtype capability unit_types.U_UNDEFINED
              (date.zip (valsFor date value))).2) := by
  simp only [sendmessageOp, hc]
  rw [if_neg hlen, hu]

/-! ## Claim C9 -/

/-- C9 counterexample: a SETDATA sendmessage call whose unit string fails to
parse but whose value and date vectors also violate the length precondition
fails with the length error, not with the invalid-unit error, refuting the
claim that every SETDATA call with an unparseable unit fails with the
invalid-unit error. -/
theorem claim_C9_counterexample :
    parseUnitsName "bogus" = Except.error ("Unknown units " ++ "bogus")
      ∧ sendmessageOp cleanState M_SETDATA "co2" [some 1750, some 1751]
          [some 1, some 2, some 3] "bogus"
          = (cleanState, Except.error lengthMsg)
      ∧ lengthMsg ≠ invalidUnitMsg "bogus" "co2" := by
  refine ⟨rfl, ?_, by decide⟩
  exact sendmessageOp_length_error cleanState sampleCore M_SETDATA "co2"
    [some 1750, some 1751] [some 1, some 2, some 3] "bogus"
    rfl (by decide) (by decide)

/-- C9 amended: provided the instance handle is valid and the value/date
length precondition passes, an unrecognized unit-name string is fatal only
for SETDATA messages: a SETDATA call fails with the invalid-unit error
before any message is dispatched (the state is unchanged), while the same
GETDATA call swallows the failure and runs the dispatch loop with the
undefined unit tag, so every message it dispatches carries U_UNDEFINED, and
when the capability is registered one message per date entry is sent. -/
theorem claim_C9_amended_unit_fatal_only_setdata (s : RState) (h : HCore)
    (capability : String) (date value : List (Option ℚ)) (u e : String)
    (hc : s.hcore = some h)
    (hlen : ¬(value.length ≠ date.length ∧ value.length ≠ 1))
    (hu : parseUnitsName u = Except.error e) :
    sendmessageOp s M_SETDATA capability date value u
        = (s, Except.error (invalidUnitMsg u capability))
      ∧ (sendmessageOp s M_GETDATA capability date value u).1.hcore
          = some ((msgLoop h M_GETDATA capability unit_types.U_UNDEFINED
              (date.zip (valsFor date value))).1)
      ∧ (∃ tail,
          ((msgLoop h M_GETDATA capability unit_types.U_UNDEFINED
              (date.zip (valsFor date value))).1).msgLog = h.msgLog ++ tail
            ∧ ∀ m ∈ tail, m.info.units = unit_types.U_UNDEFINED)
      ∧ (h.caps.contains capability = true →
          ((msgLoop h M_GETDATA capability unit_types.U_UNDEFINED
              (date.zip (valsFor date value))).1).msgLog
            = h.msgLog ++ expectedMsgs M_GETDATA capability
                unit_types.U_UNDEFINED date value) := by
  refine ⟨?_, ?_, ?_, ?_⟩
  · rw [sendmessageOp_parse_error s h M_SETDATA capability date value u e hc hlen hu]
    rw [if_pos rfl]
  · rw [sendmessageOp_parse_error s h M_GETDATA capability date value u e hc hlen hu]
    rw [if_neg (by decide : ¬(M_GETDATA = M_SETDATA))]
  · exact (msgLoop_fields M_GETDATA capability unit_types.U_UNDEFINED
      (date.zip (valsFor date value)) h).2
  · intro hcap
    rw [msgLoop_success M_GETDATA capability unit_types.U_UNDEFINED
      (date.zip (valsFor date value)) h hcap]
    rfl

/-- Witness for the amended C9: a SETDATA call with a single valid-length
date/value pair and the unparseable unit string fails with the invalid-unit
error on the sample handle. -/
theorem claim_C9_amended_unit_fatal_only_setdata_witness :
    sendmessageOp cleanState M_SETDATA "co2" [some 2000] [some 1] "bogus"
      = (cleanState, Except.error (invalidUnitMsg "bogus" "co2")) :=
  (claim_C9_amended_unit_fatal_only_setdata cleanState sampleCore "co2"
      [some 2000] [some 1] "bogus" ("Unknown units " ++ "bogus")
      rfl (by simp) rfl).1

/-! ## Claim C10 -/

/-- C10 counterexample: a SETDATA call with valid lengths (one date entry,
one value entry) but an unparseable unit string fails and dispatches zero
messages, refuting the claim that otherwise exactly one message per date
entry is dispatched. -/
theorem claim_C10_counterexample :
    sendmessageOp cleanState M_SETDATA "co2" [some 1750] [some 1] "bogus"
        = (cleanState, Except.error (invalidUnitMsg "bogus" "co2"))
      ∧ ([some (1750 : ℚ)] : List (Option ℚ)).length = 1
      ∧ sampleCore.msgLog.length = 0 := by
  refine ⟨?_, rfl, rfl⟩
  rw [sendmessageOp_parse_error cleanState sampleCore M_SETDATA "co2"
    [some 1750] [some 1] "bogus" ("Unknown units " ++ "bogus") rfl (by simp) rfl]
  rw [if_pos rfl]

/-- C10 amended: on a valid handle, a sendmessage call whose value length is
neither 1 nor the date length fails immediately with the length error and
zero messages are dispatched (the state is unchanged); otherwise, provided
the unit name parses and the capability is registered, the call succeeds and
dispatches exactly one message per date entry, reusing the single value when
the value vector has length 1. -/
theorem claim_C10_amended_length_check_and_dispatch (s : RState) (h : HCore)
    (msgtype capability : String) (date value : List (Option ℚ))
    (u : String) (hc : s.hcore = some h) :
    (value.length ≠ date.length → value.length ≠ 1 →
        sendmessageOp s msgtype capability date value u
          = (s, Except.error lengthMsg))
      ∧ (¬(value.length ≠ date.length ∧ value.length ≠ 1) →
          ∀ utype, parseUnitsName u = Except.ok utype →
            h.caps.contains capability = true →
            (sendmessageOp s msgtype capability date value u).1
                = withLog s h
                    (h.msgLog ++ expectedMsgs msgtype capability utype date value)
              ∧ (∃ out, (sendmessageOp s msgtype capability date value u).2
                  = Except.ok out)
              ∧ (expectedMsgs msgtype capability utype date value).length
                  = date.length
              ∧ (value.length = 1 →
                  ∀ m ∈ expectedMsgs msgtype capability utype date value,
                    m.info.value = (value.getD 0 none).getD 0)) := by
  constructor
  · intro h1 h2
    exact sendmessageOp_length_error s h msgtype capability date value u hc h1 h2
  · intro hlen utype hpu hcap
    rw [sendmessageOp_parse_ok s h msgtype capability date value u utype hc hlen hpu]
    rw [msgLoop_success msgtype capability utype (date.zip (valsFor date value)) h hcap]
    exact ⟨rfl, ⟨_, rfl⟩,
      expectedMsgs_length msgtype capability utype date value hlen,
      fun h1 => expectedMsgs_single_value msgtype capability utype date value h1⟩

/-- Witness for the amended C10: on the sample handle, mismatched lengths
(three values, two dates) fail with the length error; and with one date and
one value, a parseable unit and the registered capability, exactly one
message is dispatched. -/
theorem claim_C10_amended_length_check_and_dispatch_witness :
    sendmessageOp cleanState M_GETDATA "co2" [some 2000, some 2001]
        [some 1, some 2, some 3] "PgC" = (cleanState, Except.error lengthMsg)
      ∧ (expectedMsgs M_GETDATA "co2" (unit_types.U_NAMED "PgC")
          [some 2000] [some 1]).length = 1 :=
  ⟨(claim_C10_amended_length_check_and_dispatch cleanState sampleCore M_GETDATA
      "co2" [some 2000, some 2001] [some 1, some 2, some 3] "PgC" rfl).1
      (by decide) (by decide),
   ((claim_C10_amended_length_check_and_dispatch cleanState sampleCore M_GETDATA
      "co2" [some 2000] [some 1] "PgC" rfl).2 (by simp)
      (unit_types.U_NAMED "PgC") rfl rfl).2.2.1⟩

end Hector
